import Mathlib

/-!
Verification of the document-text-extraction gateway
(`src/fileExtractor/main.py`) against its specification.

The Python handler `extract_text` is shallowly embedded as a pure Lean
function over an explicit environment (`Env`) that fixes the outcome of
every effectful primitive (temporary-file creation, reading the upload,
writing to disk, the external conversion engine, `os.unlink`) and an
explicit filesystem state (`FS`, an association list from paths to byte
contents).  The embedding follows the Python source line by line,
including the semantics of `try/except/finally`: an exception raised by
the `finally` block replaces the pending return value or pending
exception of the `try/except` part.
-/

set_option autoImplicit false

namespace FileExtractor

/-- Bytes of an uploaded payload, modelled as a list of byte values. -/
abbrev Bytes := List Nat

/-- The uploaded file as FastAPI hands it to the handler: `filename` and
`content_type` are optional strings (a missing filename is `none`), plus
the binary payload that `await file.read()` returns. -/
structure UploadFile where
  filename : Option String
  content_type : Option String
  content : Bytes
deriving Repr, DecidableEq

/-- Python truthiness test `not file.filename`: true exactly when the
filename is absent or the empty string. -/
def filenameFalsy : Option String → Bool
  | none => true
  | some s => s = ""

/-- The success payload built at the end of the handler:
`{"filename": ..., "content_type": ..., "text": ..., "success": True}`. -/
structure ExtractionResult where
  filename : Option String
  content_type : Option String
  text : String
  success : Bool
deriving Repr, DecidableEq

/-- A `fastapi.HTTPException`, rendered by the framework as a JSON body
`{"detail": <detail>}` with the given status code. -/
structure HTTPError where
  status_code : Nat
  detail : String
deriving Repr, DecidableEq

/-- How one request terminates at the handler boundary: a returned JSON
result, a raised `HTTPException`, or an exception that escapes the
handler uncaught (only possible from the `finally` block). -/
inductive Outcome where
  | ok (r : ExtractionResult)
  | httpError (e : HTTPError)
  | raised (msg : String)
deriving Repr, DecidableEq

/-! ### Filesystem model -/

/-- The temporary-storage namespace: an association list from paths to
file contents.  Well-formed states have at most one entry per path,
which `fsWrite` and `fsErase` preserve. -/
abbrev FS := List (String × Bytes)

/-- Contents stored at a path, if the file exists. -/
def fsLookup : FS → String → Option Bytes
  | [], _ => none
  | (q, c) :: rest, p => if q = p then some c else fsLookup rest p

/-- Remove every entry at the given path (`os.unlink`). -/
def fsErase (fs : FS) (p : String) : FS :=
  fs.filter (fun e => e.1 != p)

/-- Create or overwrite the file at a path with the given contents. -/
def fsWrite (fs : FS) (p : String) (c : Bytes) : FS :=
  (p, c) :: fsErase fs p

/-- Test `Path(p).exists()` on the modelled filesystem. -/
def fsExists (fs : FS) (p : String) : Bool :=
  (fsLookup fs p).isSome

/-! ### `pathlib` suffix semantics

Line 41 of the source computes `suffix = Path(file.filename).suffix`.
CPython pathlib: the `name` is the final path component (empty and `.`
components dropped, everything after the last `/`), and `suffix` is
`name[i:]` for `i = name.rfind('.')` when `0 < i < len(name) - 1`,
otherwise the empty string. -/

/-- Index of the last occurrence of a character in a list
(`str.rfind`, `none` when absent). -/
def lastIdxOf (c : Char) : List Char → Option Nat
  | [] => none
  | a :: as =>
    match lastIdxOf c as with
    | some i => some (i + 1)
    | none => if a = c then some 0 else none

/-- Split a character list at every `/`, keeping empty pieces, as
`str.split` with separator `/` does. -/
def splitOnSlash : List Char → List (List Char)
  | [] => [[]]
  | c :: cs =>
    match splitOnSlash cs with
    | [] => if c = '/' then [[], []] else [[c]]
    | x :: xs => if c = '/' then [] :: x :: xs else (c :: x) :: xs

/-- The `PurePosixPath(f).name` value: the last nonempty, non-`.` component of the
path, or the empty string when there is none. -/
def pathName (f : String) : String :=
  String.mk
    (((splitOnSlash f.toList).filter
      (fun c => !c.isEmpty && c != ['.'])).getLast?.getD [])

/-- The `suffix` of a final path component, as a list of characters:
`l[i:]` for `i` the last index of a dot, provided that index is neither
the first nor the last position; otherwise empty. -/
def suffixOfName (l : List Char) : List Char :=
  match lastIdxOf '.' l with
  | none => []
  | some i => if 0 < i ∧ i + 1 < l.length then l.drop i else []

/-- The value `Path(f).suffix` as the source uses it. -/
def pathSuffix (f : String) : String :=
  String.mk (suffixOfName (pathName f).toList)

/-- Modelled from the spec wording of claim C5: everything from the last
`.` of the filename onward (including the dot), or the empty string if
the filename contains no `.`.  Kept separate from `pathSuffix`, which is
the semantics of the source, so the two can be compared. -/
def specSuffix (f : String) : String :=
  match lastIdxOf '.' f.toList with
  | none => ""
  | some i => String.mk (f.toList.drop i)

/-- Corrected description of the suffix, stated independently of
`rfind` indices: the characters of the name after its last dot,
prefixed by that dot, provided this block is nonempty and the dot is
not the first character of the name; otherwise empty. -/
def specSuffixAmended (f : String) : String :=
  let nm := (pathName f).toList
  let after := (nm.reverse.takeWhile (fun c => c != '.')).reverse
  if '.' ∈ nm ∧ after ≠ [] ∧ after.length + 2 ≤ nm.length then
    String.mk ('.' :: after)
  else ""

/-! ### The handler -/

/-- The fixed message head of the 500 detail string. -/
def errHead : String := "Error processing document: "

/-- The environment of one request: everything the effectful primitives
of the handler depend on.  `tmpStem` is the fresh base name chosen by
`tempfile.NamedTemporaryFile` (the temporary path is `tmpStem ++ suffix`);
the `...Err` fields say whether the corresponding primitive raises, and
with which message (`str(e)`); `convert` is the external conversion
engine composed with `export_to_markdown`, as a function of the path it
is given and the bytes stored there. -/
structure Env where
  tmpStem : String
  createErr : Option String
  readErr : Option String
  writeErr : Option String
  convert : String → Bytes → Except String String
  unlinkErr : Option String

/-- State after the `try/except` part of the handler, before `finally`
runs: the pending outcome, the filesystem, whether `temp_file` was bound
to a created file, the temporary path, and the paths the conversion
engine was invoked on. -/
structure BodyResult where
  pending : Outcome
  fs : FS
  tempCreated : Bool
  tempPath : String
  convertCalls : List String
deriving Repr

/-- Lines 38-70 of the source: the `try` block with its
`except Exception` clause.  Creation writes an empty file at the
temporary path; a read or write failure leaves that file in place (the
`with` block exited, `delete=False`); on a successful write the payload
is stored; the engine is then invoked on the path and reads the bytes
found there; every exception is turned into an HTTP 500 whose detail is
`errHead` followed by the exception text. -/
def tryBody (file : UploadFile) (env : Env) (fs : FS) : BodyResult :=
  let suffix := pathSuffix (file.filename.getD "")
  let path := env.tmpStem ++ suffix
  match env.createErr with
  | some e => ⟨.httpError ⟨500, errHead ++ e⟩, fs, false, path, []⟩
  | none =>
    let fs1 := fsWrite fs path []
    match env.readErr with
    | some e => ⟨.httpError ⟨500, errHead ++ e⟩, fs1, true, path, []⟩
    | none =>
      match env.writeErr with
      | some e => ⟨.httpError ⟨500, errHead ++ e⟩, fs1, true, path, []⟩
      | none =>
        let fs2 := fsWrite fs1 path file.content
        match env.convert path ((fsLookup fs2 path).getD []) with
        | .error e => ⟨.httpError ⟨500, errHead ++ e⟩, fs2, true, path, [path]⟩
        | .ok text =>
          ⟨.ok ⟨file.filename, file.content_type, text, true⟩, fs2, true, path, [path]⟩

/-- Observable result of one whole request: the outcome at the handler
boundary, the final filesystem, the paths `os.unlink` was invoked on,
and the paths the engine was invoked on. -/
structure RunResult where
  outcome : Outcome
  fs : FS
  unlinkAttempts : List String
  convertCalls : List String
deriving Repr

/-- Lines 72-75 of the source: the `finally` block.  `os.unlink` is
invoked only if `temp_file` is bound and the path exists; per Python
semantics an exception raised here replaces the pending outcome. -/
def runFinally (env : Env) (b : BodyResult) : RunResult :=
  if b.tempCreated && fsExists b.fs b.tempPath then
    match env.unlinkErr with
    | some e => ⟨.raised e, b.fs, [b.tempPath], b.convertCalls⟩
    | none => ⟨b.pending, fsErase b.fs b.tempPath, [b.tempPath], b.convertCalls⟩
  else ⟨b.pending, b.fs, [], b.convertCalls⟩

/-- Lines 27-75 of the source: the whole handler.  A falsy filename
raises HTTP 400 before the `try` block, so neither the body nor
`finally` runs; otherwise the body runs followed by `finally`. -/
def extract_text (file : UploadFile) (env : Env) (fs : FS) : RunResult :=
  if filenameFalsy file.filename then
    ⟨.httpError ⟨400, "No file provided"⟩, fs, [], []⟩
  else
    runFinally env (tryBody file env fs)

/-- Lines 77-80 of the source: the `/health` endpoint, a constant JSON
object modelled as an association list; a total pure function, so it
performs no effect and cannot fail. -/
def health_check : List (String × String) :=
  [("status", "healthy"), ("service", "document-text-extraction")]

/-! ### Concrete request data used by the witnesses -/

/-- A conversion engine that extracts the text `"hello"` from any file. -/
def helloConvert : String → Bytes → Except String String :=
  fun _ _ => .ok "hello"

/-- A benign environment: a fresh temp stem and no failing primitive. -/
def sampleEnv : Env :=
  ⟨"/tmp/tmpabc", none, none, none, helloConvert, none⟩

/-- The upload of scenario A: `note.txt`, `text/plain`, body `hello`. -/
def sampleFile : UploadFile :=
  ⟨some "note.txt", some "text/plain", [104, 101, 108, 108, 111]⟩

/-- An upload with no filename at all. -/
def noNameFile : UploadFile := ⟨none, none, []⟩

/-- Environment `sampleEnv` with a failing `os.unlink`. -/
def envUnlinkFail : Env := { sampleEnv with unlinkErr := some "Permission denied" }

/-- Environment `sampleEnv` with a different fresh temporary name, as a second call
to the endpoint would get. -/
def sampleEnv2 : Env := { sampleEnv with tmpStem := "/tmp/tmpxyz" }

/-- Environment `sampleEnv` where `tempfile.NamedTemporaryFile` itself raises. -/
def envCreateFail : Env := { sampleEnv with createErr := some "disk full" }

/-! ### Basic lemmas about the filesystem model -/

theorem fsLookup_fsWrite_self (fs : FS) (p : String) (c : Bytes) :
    fsLookup (fsWrite fs p c) p = some c := by
  simp [fsWrite, fsLookup]

theorem fsLookup_fsErase_self (fs : FS) (p : String) :
    fsLookup (fsErase fs p) p = none := by
  induction fs with
  | nil => rfl
  | cons e rest ih =>
    simp only [fsErase, List.filter_cons] at ih ⊢
    by_cases h : e.1 = p
    · simp [h, ih]
    · simp [fsLookup, h, ih]

theorem fsExists_fsWrite_self (fs : FS) (p : String) (c : Bytes) :
    fsExists (fsWrite fs p c) p = true := by
  simp [fsExists, fsLookup_fsWrite_self]

/-! ### Characterisation of the last-dot search -/

theorem lastIdxOf_eq_none_iff {c : Char} {l : List Char} :
    lastIdxOf c l = none ↔ c ∉ l := by
  induction l with
  | nil => simp [lastIdxOf]
  | cons a as ih =>
    simp only [lastIdxOf]
    cases hr : lastIdxOf c as with
    | some i =>
      have hmem : c ∈ as := by
        by_contra hn
        rw [ih.mpr hn] at hr
        cases hr
      simp [List.mem_cons, hmem]
    | none =>
      have hnotin := ih.mp hr
      by_cases h : a = c
      · simp [h, List.mem_cons]
      · rw [if_neg h]
        simp [List.mem_cons, hnotin, Ne.symm h]

theorem takeWhile_append_of_mem_fails {α : Type} {p : α → Bool}
    {xs : List α} (ys : List α) (a : α) (ha : a ∈ xs) (hpa : p a = false) :
    (xs ++ ys).takeWhile p = xs.takeWhile p := by
  induction xs with
  | nil => cases ha
  | cons x xs ih =>
    simp only [List.cons_append, List.takeWhile_cons]
    cases hx : p x with
    | false => rfl
    | true =>
      have hmem : a ∈ xs := by
        rcases List.mem_cons.mp ha with h | h
        · rw [h, hx] at hpa
          cases hpa
        · exact h
      rw [ih hmem]

/-- If the last occurrence of `c` in `l` is at index `i`, then `i` is a
valid index, dropping up to it yields `c` followed by the block of
non-`c` characters at the end of `l`, and that block has length
`l.length - i - 1`. -/
theorem lastIdxOf_some_spec {c : Char} {l : List Char} {i : Nat}
    (h : lastIdxOf c l = some i) :
    i < l.length ∧
    l.drop i = c :: (l.reverse.takeWhile (fun x => x != c)).reverse ∧
    (l.reverse.takeWhile (fun x => x != c)).length = l.length - i - 1 := by
  induction l generalizing i with
  | nil => cases h
  | cons a as ih =>
    simp only [lastIdxOf] at h
    cases hr : lastIdxOf c as with
    | some j =>
      rw [hr] at h
      injection h with h
      subst h
      obtain ⟨hlt, hdrop, hlen⟩ := ih hr
      have hc : c ∈ as := by
        by_contra hn
        rw [lastIdxOf_eq_none_iff.mpr hn] at hr
        cases hr
      have hstop : ((as.reverse ++ [a]).takeWhile (fun x => x != c)) =
          as.reverse.takeWhile (fun x => x != c) :=
        takeWhile_append_of_mem_fails _ c (List.mem_reverse.mpr hc) (by simp)
      refine ⟨Nat.succ_lt_succ hlt, ?_, ?_⟩
      · rw [List.drop_succ_cons, List.reverse_cons, hstop]
        exact hdrop
      · rw [List.reverse_cons, hstop, List.length_cons]
        omega
    | none =>
      rw [hr] at h
      by_cases hac : a = c
      · rw [if_pos hac] at h
        injection h with h
        subst h
        subst hac
        have hnotin := lastIdxOf_eq_none_iff.mp hr
        have hall : ∀ x ∈ as.reverse, (fun x => x != a) x = true := by
          intro x hx
          simp only [bne_iff_ne, ne_eq]
          intro hxc
          rw [hxc] at hx
          exact hnotin (List.mem_reverse.mp hx)
        refine ⟨Nat.succ_pos _, ?_, ?_⟩
        · rw [List.drop_zero, List.reverse_cons,
            List.takeWhile_append_of_pos hall]
          simp
        · rw [List.reverse_cons, List.takeWhile_append_of_pos hall]
          simp
      · rw [if_neg hac] at h
        cases h

/-! ### Claim theorems -/

/-- C5 as stated is false on the code: for the filename `.bashrc` the
suffix the source computes (`Path(filename).suffix`) is empty, while
everything from the last dot onward is `.bashrc` itself. -/
theorem pathSuffix_ne_specSuffix :
    pathSuffix ".bashrc" ≠ specSuffix ".bashrc" := by decide

theorem suffixOfName_none {l : List Char} (h : lastIdxOf '.' l = none) :
    suffixOfName l = [] := by
  unfold suffixOfName
  rw [h]

theorem suffixOfName_some {l : List Char} {i : Nat}
    (h : lastIdxOf '.' l = some i) :
    suffixOfName l = if 0 < i ∧ i + 1 < l.length then l.drop i else [] := by
  unfold suffixOfName
  rw [h]

/-- C5 amended: the suffix used for the temporary artifact is the block
of characters after the last dot of the final path component, preceded
by that dot — provided the block is nonempty and the dot is not the
first character of the component; in every other case (no dot, leading
dot only, or trailing dot) the suffix is the empty string. -/
theorem pathSuffix_eq_amended (f : String) :
    pathSuffix f = specSuffixAmended f := by
  rw [pathSuffix]
  cases h : lastIdxOf '.' (pathName f).toList with
  | none =>
    have hnotin := lastIdxOf_eq_none_iff.mp h
    rw [suffixOfName_none h]
    simp only [specSuffixAmended]
    rw [if_neg]
    intro hcond
    exact hnotin hcond.1
  | some i =>
    obtain ⟨hlt, hdrop, hlen⟩ := lastIdxOf_some_spec h
    have hmem : '.' ∈ (pathName f).toList := by
      by_contra hn
      rw [lastIdxOf_eq_none_iff.mpr hn] at h
      cases h
    rw [suffixOfName_some h]
    simp only [specSuffixAmended]
    by_cases hcond : 0 < i ∧ i + 1 < (pathName f).toList.length
    · rw [if_pos hcond, if_pos, hdrop]
      refine ⟨hmem, ?_, ?_⟩
      · intro hnil
        have hln := congrArg List.length hnil
        simp only [List.length_reverse, List.length_nil] at hln
        omega
      · simp only [List.length_reverse]
        omega
    · rw [if_neg hcond, if_neg]
      rintro ⟨-, hne, hlen2⟩
      have hpos : 0 <
          (((pathName f).toList.reverse.takeWhile
            (fun x => x != '.')).reverse).length :=
        List.length_pos.mpr hne
      simp only [List.length_reverse] at hpos hlen2
      omega

/-- C8: `healthCheck` always returns the constant object
`{"status": "healthy", "service": "document-text-extraction"}`; being a
total pure constant, it performs no I/O and has no failure modes. -/
theorem health_check_spec :
    health_check = [("status", "healthy"), ("service", "document-text-extraction")] :=
  rfl

/-- C3: a request with a missing or empty filename fails immediately
with HTTP 400 and detail `No file provided`; the filesystem is
untouched, the conversion engine is never invoked, and no unlink is
attempted. -/
theorem extract_text_no_filename (file : UploadFile) (env : Env) (fs : FS)
    (h : filenameFalsy file.filename = true) :
    (extract_text file env fs).outcome = .httpError ⟨400, "No file provided"⟩ ∧
    (extract_text file env fs).fs = fs ∧
    (extract_text file env fs).convertCalls = [] ∧
    (extract_text file env fs).unlinkAttempts = [] := by
  simp [extract_text, h]

theorem extract_text_no_filename_witness :
    filenameFalsy noNameFile.filename = true ∧
    ((extract_text noNameFile sampleEnv []).outcome =
        .httpError ⟨400, "No file provided"⟩ ∧
      (extract_text noNameFile sampleEnv []).fs = [] ∧
      (extract_text noNameFile sampleEnv []).convertCalls = [] ∧
      (extract_text noNameFile sampleEnv []).unlinkAttempts = []) :=
  ⟨by decide, extract_text_no_filename noNameFile sampleEnv [] (by decide)⟩

/-- C10: cleanup attempts deletion only when a temporary file was
actually created and still exists: no unlink on the 400 path, no unlink
when temporary-file creation itself failed, and every attempted unlink
is on a path that exists in the filesystem the body left behind. -/
theorem extract_text_unlink_guard (file : UploadFile) (env : Env) (fs : FS) :
    (filenameFalsy file.filename = true →
      (extract_text file env fs).unlinkAttempts = []) ∧
    (∀ e, env.createErr = some e →
      (extract_text file env fs).unlinkAttempts = []) ∧
    (∀ p, p ∈ (extract_text file env fs).unlinkAttempts →
      fsExists (tryBody file env fs).fs p = true) := by
  refine ⟨fun h => by simp [extract_text, h], fun e he => ?_, fun p hp => ?_⟩
  · by_cases h : filenameFalsy file.filename
    · simp [extract_text, h]
    · simp only [extract_text, h, Bool.false_eq_true, if_false]
      simp [runFinally, tryBody, he, pathSuffix]
  · by_cases h : filenameFalsy file.filename
    · simp [extract_text, h] at hp
    · simp only [extract_text, h, Bool.false_eq_true, if_false] at hp
      unfold runFinally at hp
      split at hp
      · rename_i hcond
        have hex := (Bool.and_eq_true _ _).mp hcond |>.2
        split at hp <;>
          simp only [List.mem_singleton] at hp <;> exact hp ▸ hex
      · simp at hp

theorem extract_text_unlink_guard_witness :
    (extract_text noNameFile sampleEnv []).unlinkAttempts = [] :=
  (extract_text_unlink_guard noNameFile sampleEnv []).1 (by decide)

/-- The `finally` block does not change a pending outcome when
`os.unlink` does not fail. -/
theorem runFinally_outcome_of_unlink_ok (env : Env) (b : BodyResult)
    (h : env.unlinkErr = none) : (runFinally env b).outcome = b.pending := by
  unfold runFinally
  split
  · rw [h]
  · rfl

/-- If the whole request produced a returned value, the `try/except`
part already had it pending. -/
theorem runFinally_ok_pending (env : Env) (b : BodyResult) (r : ExtractionResult)
    (h : (runFinally env b).outcome = .ok r) : b.pending = .ok r := by
  unfold runFinally at h
  split at h
  · cases hu : env.unlinkErr with
    | some e => rw [hu] at h; simp at h
    | none => rw [hu] at h; exact h
  · exact h

/-- Inversion of the success path: a returned result can only arise
when the filename was truthy, no primitive failed before conversion,
and the engine succeeded on the temporary path with the uploaded bytes;
the result is fully determined by the upload and the engine output. -/
theorem extract_text_ok_inv (file : UploadFile) (env : Env) (fs : FS)
    (r : ExtractionResult)
    (h : (extract_text file env fs).outcome = .ok r) :
    filenameFalsy file.filename = false ∧
    env.createErr = none ∧ env.readErr = none ∧ env.writeErr = none ∧
    env.convert (env.tmpStem ++ pathSuffix (file.filename.getD ""))
      file.content = .ok r.text ∧
    r = ⟨file.filename, file.content_type, r.text, true⟩ := by
  by_cases hname : filenameFalsy file.filename
  · simp [extract_text, hname] at h
  · simp only [extract_text, hname, Bool.false_eq_true, if_false] at h
    have hp := runFinally_ok_pending env _ r h
    unfold tryBody at hp
    cases hc : env.createErr with
    | some e => simp [hc] at hp
    | none =>
    cases hrd : env.readErr with
    | some e => simp [hc, hrd] at hp
    | none =>
    cases hw : env.writeErr with
    | some e => simp [hc, hrd, hw] at hp
    | none =>
    simp only [hc, hrd, hw, fsLookup_fsWrite_self, Option.getD_some] at hp
    cases hcv : env.convert (env.tmpStem ++ pathSuffix (file.filename.getD ""))
        file.content with
    | error e => simp [hcv] at hp
    | ok t =>
      rw [hcv] at hp
      simp only [Outcome.ok.injEq] at hp
      subst hp
      exact ⟨by simpa using hname, rfl, rfl, rfl, rfl, rfl⟩

/-- C9: `extractText` never returns a result whose `success` field is
`false`: every returned (non-error) result carries the constant `true`,
so failure is signalled only through an error outcome. -/
theorem extract_text_success_flag (file : UploadFile) (env : Env) (fs : FS)
    (r : ExtractionResult)
    (h : (extract_text file env fs).outcome = .ok r) : r.success = true := by
  obtain ⟨-, -, -, -, -, hr⟩ := extract_text_ok_inv file env fs r h
  rw [hr]

theorem extract_text_success_flag_witness :
    (extract_text sampleFile sampleEnv []).outcome =
      .ok ⟨some "note.txt", some "text/plain", "hello", true⟩ ∧
    (⟨some "note.txt", some "text/plain", "hello", true⟩ : ExtractionResult).success
      = true :=
  ⟨by decide, extract_text_success_flag sampleFile sampleEnv [] _ (by decide)⟩

/-- C6: on a request with a truthy filename where no primitive fails
and the engine succeeds with text `t`, the handler returns exactly
`{filename, content_type, text := t, success := true}` with the
original filename and declared content type. -/
theorem extract_text_success (file : UploadFile) (env : Env) (fs : FS)
    (s t : String)
    (hfn : file.filename = some s) (hs : s ≠ "")
    (hcreate : env.createErr = none) (hread : env.readErr = none)
    (hwrite : env.writeErr = none)
    (hconv : env.convert (env.tmpStem ++ pathSuffix s) file.content = .ok t)
    (hunlink : env.unlinkErr = none) :
    (extract_text file env fs).outcome =
      .ok ⟨some s, file.content_type, t, true⟩ := by
  have hname : filenameFalsy file.filename = false := by
    simp [hfn, filenameFalsy, hs]
  simp only [extract_text, hname, Bool.false_eq_true, if_false]
  rw [runFinally_outcome_of_unlink_ok env _ hunlink]
  unfold tryBody
  simp only [hfn, Option.getD_some, hcreate, hread, hwrite,
    fsLookup_fsWrite_self, hconv]

theorem extract_text_success_witness :
    (extract_text sampleFile sampleEnv []).outcome =
      .ok ⟨some "note.txt", sampleFile.content_type, "hello", true⟩ :=
  extract_text_success sampleFile sampleEnv [] "note.txt" "hello"
    rfl (by decide) rfl rfl rfl rfl rfl

/-- C4: with a truthy filename (and a cleanup that itself succeeds),
every failing step is translated into HTTP 500 with detail
`Error processing document: ` followed by the exception text, whichever
step failed first; and a returned value can only arise when every step
succeeded, carrying the full engine output, never a partial result. -/
theorem extract_text_error_translation (file : UploadFile) (env : Env) (fs : FS)
    (s : String)
    (hfn : file.filename = some s) (hs : s ≠ "")
    (hunlink : env.unlinkErr = none) :
    (∀ e, env.createErr = some e →
      (extract_text file env fs).outcome = .httpError ⟨500, errHead ++ e⟩) ∧
    (∀ e, env.createErr = none → env.readErr = some e →
      (extract_text file env fs).outcome = .httpError ⟨500, errHead ++ e⟩) ∧
    (∀ e, env.createErr = none → env.readErr = none → env.writeErr = some e →
      (extract_text file env fs).outcome = .httpError ⟨500, errHead ++ e⟩) ∧
    (∀ e, env.createErr = none → env.readErr = none → env.writeErr = none →
      env.convert (env.tmpStem ++ pathSuffix s) file.content = .error e →
      (extract_text file env fs).outcome = .httpError ⟨500, errHead ++ e⟩) ∧
    (∀ r, (extract_text file env fs).outcome = .ok r →
      env.createErr = none ∧ env.readErr = none ∧ env.writeErr = none ∧
      env.convert (env.tmpStem ++ pathSuffix s) file.content = .ok r.text) := by
  have hname : filenameFalsy file.filename = false := by
    simp [hfn, filenameFalsy, hs]
  refine ⟨fun e hc => ?_, fun e hc hrd => ?_, fun e hc hrd hw => ?_,
    fun e hc hrd hw hcv => ?_, fun r hr => ?_⟩
  · simp only [extract_text, hname, Bool.false_eq_true, if_false]
    rw [runFinally_outcome_of_unlink_ok env _ hunlink]
    unfold tryBody
    simp [hc]
  · simp only [extract_text, hname, Bool.false_eq_true, if_false]
    rw [runFinally_outcome_of_unlink_ok env _ hunlink]
    unfold tryBody
    simp [hc, hrd]
  · simp only [extract_text, hname, Bool.false_eq_true, if_false]
    rw [runFinally_outcome_of_unlink_ok env _ hunlink]
    unfold tryBody
    simp [hc, hrd, hw]
  · simp only [extract_text, hname, Bool.false_eq_true, if_false]
    rw [runFinally_outcome_of_unlink_ok env _ hunlink]
    unfold tryBody
    simp [hc, hrd, hw, fsLookup_fsWrite_self, hfn, hcv]
  · obtain ⟨-, h1, h2, h3, h4, -⟩ := extract_text_ok_inv file env fs r hr
    rw [hfn] at h4
    exact ⟨h1, h2, h3, h4⟩

theorem extract_text_error_translation_witness :
    (extract_text sampleFile envCreateFail []).outcome =
      .httpError ⟨500, errHead ++ "disk full"⟩ :=
  (extract_text_error_translation sampleFile envCreateFail [] "note.txt"
    rfl (by decide) rfl).1 "disk full" rfl

/-- C1: every request that actually creates a temporary artifact
(truthy filename, creation succeeded) performs exactly one unlink
attempt on the temporary path, on every exit path; and whenever the
unlink primitive does not itself fail, the temporary path no longer
exists in the final filesystem. -/
theorem extract_text_cleanup (file : UploadFile) (env : Env) (fs : FS)
    (hname : filenameFalsy file.filename = false)
    (hcreate : env.createErr = none) :
    (extract_text file env fs).unlinkAttempts =
      [env.tmpStem ++ pathSuffix (file.filename.getD "")] ∧
    (env.unlinkErr = none →
      fsLookup (extract_text file env fs).fs
        (env.tmpStem ++ pathSuffix (file.filename.getD "")) = none) := by
  simp only [extract_text, hname, Bool.false_eq_true, if_false]
  unfold tryBody
  have hbody :
      ∀ b : BodyResult, b.tempCreated = true →
        fsExists b.fs b.tempPath = true →
        b.tempPath = env.tmpStem ++ pathSuffix (file.filename.getD "") →
        (runFinally env b).unlinkAttempts =
          [env.tmpStem ++ pathSuffix (file.filename.getD "")] ∧
        (env.unlinkErr = none →
          fsLookup (runFinally env b).fs
            (env.tmpStem ++ pathSuffix (file.filename.getD "")) = none) := by
    intro b hb hex hpath
    unfold runFinally
    rw [hb, hex]
    simp only [Bool.and_self, if_true]
    obtain ⟨u, hu⟩ : ∃ u, env.unlinkErr = u := ⟨_, rfl⟩
    rw [hu]
    cases u with
    | some e =>
      exact ⟨by rw [hpath], fun hcontra => Option.noConfusion hcontra⟩
    | none =>
      refine ⟨by rw [hpath], fun _ => ?_⟩
      rw [hpath]
      exact fsLookup_fsErase_self _ _
  simp only [hcreate]
  cases hrd : env.readErr with
  | some e => exact hbody _ rfl (fsExists_fsWrite_self _ _ _) rfl
  | none =>
  cases hw : env.writeErr with
  | some e => exact hbody _ rfl (fsExists_fsWrite_self _ _ _) rfl
  | none =>
  cases hcv : env.convert (env.tmpStem ++ pathSuffix (file.filename.getD ""))
      ((fsLookup (fsWrite (fsWrite fs
        (env.tmpStem ++ pathSuffix (file.filename.getD "")) [])
        (env.tmpStem ++ pathSuffix (file.filename.getD "")) file.content)
        (env.tmpStem ++ pathSuffix (file.filename.getD ""))).getD []) with
  | error e => exact hbody _ rfl (fsExists_fsWrite_self _ _ _) rfl
  | ok t => exact hbody _ rfl (fsExists_fsWrite_self _ _ _) rfl

theorem extract_text_cleanup_witness :
    filenameFalsy sampleFile.filename = false ∧
    ((extract_text sampleFile sampleEnv []).unlinkAttempts =
        [sampleEnv.tmpStem ++ pathSuffix (sampleFile.filename.getD "")] ∧
      (sampleEnv.unlinkErr = none →
        fsLookup (extract_text sampleFile sampleEnv []).fs
          (sampleEnv.tmpStem ++ pathSuffix (sampleFile.filename.getD "")) = none)) :=
  ⟨by decide, extract_text_cleanup sampleFile sampleEnv [] (by decide) rfl⟩

/-- C2 as stated is false on the code: `os.unlink` in the `finally`
block is not wrapped, so its failure replaces the response.  At the
concrete request of scenario A, the outcome with a failing unlink
differs from the outcome with a succeeding unlink. -/
theorem extract_text_unlink_changes_response :
    (extract_text sampleFile envUnlinkFail []).outcome ≠
      (extract_text sampleFile sampleEnv []).outcome := by decide

/-- C2 amended: when the request created a temporary artifact and the
deletion in the `finally` block fails, that failure propagates to the
caller as an uncaught exception, replacing the success or error
response that was pending. -/
theorem extract_text_unlink_failure (file : UploadFile) (env : Env) (fs : FS)
    (e : String)
    (hname : filenameFalsy file.filename = false)
    (hcreate : env.createErr = none)
    (hunlink : env.unlinkErr = some e) :
    (extract_text file env fs).outcome = .raised e := by
  simp only [extract_text, hname, Bool.false_eq_true, if_false]
  unfold tryBody
  have hbody :
      ∀ b : BodyResult, b.tempCreated = true →
        fsExists b.fs b.tempPath = true →
        (runFinally env b).outcome = .raised e := by
    intro b hb hex
    unfold runFinally
    rw [hb, hex]
    simp only [Bool.and_self, if_true, hunlink]
  simp only [hcreate]
  cases hrd : env.readErr with
  | some e => exact hbody _ rfl (fsExists_fsWrite_self _ _ _)
  | none =>
  cases hw : env.writeErr with
  | some e => exact hbody _ rfl (fsExists_fsWrite_self _ _ _)
  | none =>
  cases hcv : env.convert (env.tmpStem ++ pathSuffix (file.filename.getD ""))
      ((fsLookup (fsWrite (fsWrite fs
        (env.tmpStem ++ pathSuffix (file.filename.getD "")) [])
        (env.tmpStem ++ pathSuffix (file.filename.getD "")) file.content)
        (env.tmpStem ++ pathSuffix (file.filename.getD ""))).getD []) with
  | error e => exact hbody _ rfl (fsExists_fsWrite_self _ _ _)
  | ok t => exact hbody _ rfl (fsExists_fsWrite_self _ _ _)

theorem extract_text_unlink_failure_witness :
    filenameFalsy sampleFile.filename = false ∧
    envUnlinkFail.createErr = none ∧
    envUnlinkFail.unlinkErr = some "Permission denied" ∧
    (extract_text sampleFile envUnlinkFail []).outcome =
      .raised "Permission denied" :=
  ⟨by decide, rfl, rfl,
    extract_text_unlink_failure sampleFile envUnlinkFail [] "Permission denied"
      (by decide) rfl rfl⟩

/-- C7: two calls with the same upload return the same extracted text,
provided the engine is the same in both calls and is a deterministic
function of the file contents and the path suffix (the two calls may
get different fresh temporary names, as long as those names carry the
same suffix). -/
theorem extract_text_deterministic (file : UploadFile) (e1 e2 : Env)
    (fs1 fs2 : FS)
    (hconv : e1.convert = e2.convert)
    (hdet : ∀ p q c, pathSuffix p = pathSuffix q →
      e1.convert p c = e1.convert q c)
    (hsfx : pathSuffix (e1.tmpStem ++ pathSuffix (file.filename.getD "")) =
      pathSuffix (e2.tmpStem ++ pathSuffix (file.filename.getD "")))
    (r1 r2 : ExtractionResult)
    (h1 : (extract_text file e1 fs1).outcome = .ok r1)
    (h2 : (extract_text file e2 fs2).outcome = .ok r2) :
    r1.text = r2.text := by
  obtain ⟨-, -, -, -, hc1, -⟩ := extract_text_ok_inv file e1 fs1 r1 h1
  obtain ⟨-, -, -, -, hc2, -⟩ := extract_text_ok_inv file e2 fs2 r2 h2
  have hd := hdet (e1.tmpStem ++ pathSuffix (file.filename.getD ""))
    (e2.tmpStem ++ pathSuffix (file.filename.getD "")) file.content hsfx
  rw [hc1, hconv, hc2] at hd
  exact Except.ok.inj hd

theorem extract_text_deterministic_witness :
    (extract_text sampleFile sampleEnv []).outcome =
      .ok ⟨some "note.txt", some "text/plain", "hello", true⟩ ∧
    (extract_text sampleFile sampleEnv2 []).outcome =
      .ok ⟨some "note.txt", some "text/plain", "hello", true⟩ ∧
    (⟨some "note.txt", some "text/plain", "hello", true⟩ : ExtractionResult).text =
      (⟨some "note.txt", some "text/plain", "hello", true⟩ : ExtractionResult).text :=
  ⟨by decide, by decide,
    extract_text_deterministic sampleFile sampleEnv sampleEnv2 [] []
      rfl (fun _ _ _ _ => rfl) (by decide) _ _ (by decide) (by decide)⟩

end FileExtractor
